import Mathlib

/-!
Verification development for the PR-review orchestration core
(`api/src/lib/gemini-cli.ts`, `api/src/lib/github.ts`, `api/src/lib/gemini.ts`,
`api/src/types.ts`).

Shallow embedding conventions:
* JavaScript values produced by `JSON.parse` are modelled by the inductive
  `Json`; JS numbers are modelled by `Rat`.
* Fallible operations (`throw`) are modelled with `Except` / `Option`.
* Effectful collaborators (git subprocesses, the `gemini` subprocess, the
  file-search service) are modelled by environment records holding each
  external call's outcome; the filesystem state relevant to a claim (the
  per-PR workspace directory, the uploaded temp file) is threaded as a
  `Bool` (does the entry exist).
* `String.length` / `String.take` count characters where the JS source
  counts UTF-16 code units; the two agree on all BMP text.
-/

/-! ### JSON values (results of JS `JSON.parse`) -/

inductive Json where
  | null : Json
  | bool : Bool → Json
  | num : Rat → Json
  | str : String → Json
  | arr : List Json → Json
  | obj : List (String × Json) → Json

/-- The open-brace character, written via its code point. -/
def lbrace : Char := Char.ofNat 123

/-- The close-brace character, written via its code point. -/
def rbrace : Char := Char.ofNat 125

/-- JSON insignificant whitespace (RFC 8259, as accepted by `JSON.parse`). -/
def isJsonWs (c : Char) : Bool := c = ' ' || c = '\t' || c = '\n' || c = '\r'

def skipWs (cs : List Char) : List Char := cs.dropWhile isJsonWs

/-- Value of a hexadecimal digit, used for `\uXXXX` string escapes. -/
def hexVal (c : Char) : Option Nat :=
  if '0' ≤ c ∧ c ≤ '9' then some (c.toNat - 48)
  else if 'a' ≤ c ∧ c ≤ 'f' then some (c.toNat - 87)
  else if 'A' ≤ c ∧ c ≤ 'F' then some (c.toNat - 55)
  else none

/-- Single-character JSON string escapes. -/
def escChar (c : Char) : Option Char :=
  if c = '"' then some '"'
  else if c = '\\' then some '\\'
  else if c = '/' then some '/'
  else if c = 'b' then some (Char.ofNat 8)
  else if c = 'f' then some (Char.ofNat 12)
  else if c = 'n' then some '\n'
  else if c = 'r' then some '\r'
  else if c = 't' then some '\t'
  else none

/-- Parse the body of a JSON string (the opening quote already consumed),
returning the decoded characters and the input remaining after the closing
quote.  Fuelled recursion; the fuel passed by `jsonParse` always suffices. -/
def parseStringBody : Nat → List Char → Option (List Char × List Char)
  | 0, _ => none
  | _, [] => none
  | Nat.succ fuel, c :: rest =>
    if c = '"' then some ([], rest)
    else if c = '\\' then
      match rest with
      | [] => none
      | e :: rest2 =>
        if e = 'u' then
          match rest2 with
          | h1 :: h2 :: h3 :: h4 :: rest3 =>
            match hexVal h1, hexVal h2, hexVal h3, hexVal h4 with
            | some a, some b, some c3, some d =>
              match parseStringBody fuel rest3 with
              | some (s, r) =>
                some (Char.ofNat (((a * 16 + b) * 16 + c3) * 16 + d) :: s, r)
              | none => none
            | _, _, _, _ => none
          | _ => none
        else
          match escChar e with
          | some ec =>
            match parseStringBody fuel rest2 with
            | some (s, r) => some (ec :: s, r)
            | none => none
          | none => none
    else if c.toNat < 32 then none
    else
      match parseStringBody fuel rest with
      | some (s, r) => some (c :: s, r)
      | none => none

def digitVal (c : Char) : Nat := c.toNat - 48

def natFromDigits (ds : List Char) : Nat :=
  ds.foldl (fun a c => a * 10 + digitVal c) 0

/-- Parse a JSON number (strict RFC 8259 grammar, as `JSON.parse` accepts):
optional minus, integer part without leading zeros, optional fraction,
optional exponent.  The numeric value is modelled exactly as a rational. -/
def parseNumber (cs : List Char) : Option (Rat × List Char) :=
  let signSplit : Bool × List Char :=
    match cs with
    | '-' :: t => (true, t)
    | _ => (false, cs)
  let neg := signSplit.1
  let cs1 := signSplit.2
  let intDigits := cs1.takeWhile Char.isDigit
  let rest1 := cs1.dropWhile Char.isDigit
  if intDigits.isEmpty then none
  else if 1 < intDigits.length ∧ intDigits.headD '0' = '0' then none
  else
    let fracSplit : Option (List Char × List Char) :=
      match rest1 with
      | '.' :: r2 =>
        let fds := r2.takeWhile Char.isDigit
        if fds.isEmpty then none else some (fds, r2.dropWhile Char.isDigit)
      | _ => some ([], rest1)
    match fracSplit with
    | none => none
    | some (fracDigits, rest2) =>
      let expSplit : Option (Int × List Char) :=
        match rest2 with
        | 'e' :: r3 =>
          match r3 with
          | '+' :: r4 =>
            let eds := r4.takeWhile Char.isDigit
            if eds.isEmpty then none
            else some ((natFromDigits eds : Int), r4.dropWhile Char.isDigit)
          | '-' :: r4 =>
            let eds := r4.takeWhile Char.isDigit
            if eds.isEmpty then none
            else some (-(natFromDigits eds : Int), r4.dropWhile Char.isDigit)
          | _ =>
            let eds := r3.takeWhile Char.isDigit
            if eds.isEmpty then none
            else some ((natFromDigits eds : Int), r3.dropWhile Char.isDigit)
        | 'E' :: r3 =>
          match r3 with
          | '+' :: r4 =>
            let eds := r4.takeWhile Char.isDigit
            if eds.isEmpty then none
            else some ((natFromDigits eds : Int), r4.dropWhile Char.isDigit)
          | '-' :: r4 =>
            let eds := r4.takeWhile Char.isDigit
            if eds.isEmpty then none
            else some (-(natFromDigits eds : Int), r4.dropWhile Char.isDigit)
          | _ =>
            let eds := r3.takeWhile Char.isDigit
            if eds.isEmpty then none
            else some ((natFromDigits eds : Int), r3.dropWhile Char.isDigit)
        | _ => some (0, rest2)
      match expSplit with
      | none => none
      | some (expVal, rest3) =>
        let mantissa : Int := (natFromDigits (intDigits ++ fracDigits) : Int)
        let m : Int := if neg then -mantissa else mantissa
        -- the decimal's exact value is m * 10 ^ (expVal - fracDigits.length);
        -- built without `Rat` field operations so that it evaluates
        let ek : Int := expVal - (fracDigits.length : Int)
        let q : Rat :=
          if 0 ≤ ek then Rat.ofInt (m * 10 ^ ek.toNat)
          else mkRat m (10 ^ (-ek).toNat)
        some (q, rest3)

mutual

/-- Parse one JSON value.  Fuelled mutual recursion mirroring the grammar
`JSON.parse` accepts; `jsonParse` supplies ample fuel. -/
def parseValue : Nat → List Char → Option (Json × List Char)
  | 0, _ => none
  | Nat.succ fuel, cs0 =>
    match skipWs cs0 with
    | [] => none
    | c :: rest =>
      if c = 'n' then
        match rest with
        | 'u' :: 'l' :: 'l' :: r => some (Json.null, r)
        | _ => none
      else if c = 't' then
        match rest with
        | 'r' :: 'u' :: 'e' :: r => some (Json.bool true, r)
        | _ => none
      else if c = 'f' then
        match rest with
        | 'a' :: 'l' :: 's' :: 'e' :: r => some (Json.bool false, r)
        | _ => none
      else if c = '"' then
        match parseStringBody (Nat.succ fuel) rest with
        | some (s, r) => some (Json.str (String.mk s), r)
        | none => none
      else if c = '[' then
        match skipWs rest with
        | c2 :: r2 =>
          if c2 = ']' then some (Json.arr [], r2)
          else
            match parseElems fuel (c2 :: r2) with
            | some (xs, r) => some (Json.arr xs, r)
            | none => none
        | [] => none
      else if c = lbrace then
        match skipWs rest with
        | c2 :: r2 =>
          if c2 = rbrace then some (Json.obj [], r2)
          else
            match parseFields fuel (c2 :: r2) with
            | some (fs, r) => some (Json.obj fs, r)
            | none => none
        | [] => none
      else if c = '-' then
        match parseNumber (c :: rest) with
        | some (q, r) => some (Json.num q, r)
        | none => none
      else if c.isDigit then
        match parseNumber (c :: rest) with
        | some (q, r) => some (Json.num q, r)
        | none => none
      else none

/-- Parse the elements of a non-empty JSON array, up to and including the
closing bracket. -/
def parseElems : Nat → List Char → Option (List Json × List Char)
  | 0, _ => none
  | Nat.succ fuel, cs =>
    match parseValue fuel cs with
    | none => none
    | some (v, rest) =>
      match skipWs rest with
      | ',' :: r2 =>
        match parseElems fuel r2 with
        | some (vs, r) => some (v :: vs, r)
        | none => none
      | ']' :: r2 => some ([v], r2)
      | _ => none

/-- Parse the fields of a non-empty JSON object, up to and including the
closing brace. -/
def parseFields : Nat → List Char → Option (List (String × Json) × List Char)
  | 0, _ => none
  | Nat.succ fuel, cs =>
    match skipWs cs with
    | '"' :: rest =>
      match parseStringBody (Nat.succ fuel) rest with
      | none => none
      | some (k, rest2) =>
        match skipWs rest2 with
        | ':' :: rest3 =>
          match parseValue fuel rest3 with
          | none => none
          | some (v, rest4) =>
            match skipWs rest4 with
            | ',' :: r5 =>
              match parseFields fuel r5 with
              | some (fs, r) => some ((String.mk k, v) :: fs, r)
              | none => none
            | c5 :: r5 => if c5 = rbrace then some ([(String.mk k, v)], r5) else none
            | [] => none
        | _ => none
    | _ => none

end

/-- Fuel comfortably covering any parse of `s` (nesting depth is at most the
length, and each unit of depth consumes at least one character). -/
def jsonFuel (s : String) : Nat := 2 * s.length + 4

/-- Model of JS `JSON.parse : string → value-or-throw` (`none` = throws). -/
def jsonParse (s : String) : Option Json :=
  match parseValue (jsonFuel s) s.data with
  | some (v, rest) => if skipWs rest = [] then some v else none
  | none => none

/-- Property access `obj[k]` on a parsed JSON value: only objects have
fields, and (as in `JSON.parse`) a duplicated key keeps its last value. -/
def lookupLast (k : String) : List (String × Json) → Option Json
  | [] => none
  | (k2, v) :: rest =>
    match lookupLast k rest with
    | some r => some r
    | none => if k2 = k then some v else none

def getField (j : Json) (k : String) : Option Json :=
  match j with
  | Json.obj fs => lookupLast k fs
  | _ => none

/-- JS truthiness of a value produced by `JSON.parse`. -/
def truthy (j : Json) : Bool :=
  match j with
  | Json.null => false
  | Json.bool b => b
  | Json.num q => if q = 0 then false else true
  | Json.str s => s != ""
  | Json.arr _ => true
  | Json.obj _ => true

/-! ### The two bracket-extraction regexes

`gemini-cli.ts` extracts a findings array with two regexes over arbitrary
text: the greedy form matches from the first usable open bracket
to the LAST close bracket of the whole text, the lazy form
matches from the first usable open bracket to the FIRST close bracket
after it.  Both regexes treat every character alike
(the character class admits any character), so a match exists exactly when
some open bracket has a close bracket after it, and the leftmost such open
bracket starts the match. -/

/-- Longest prefix of `cs` ending at the last close bracket of `cs`
(`none` when `cs` holds no close bracket). -/
def upToLastClose (cs : List Char) : Option (List Char) :=
  let tail := cs.reverse.dropWhile (fun c => c != ']')
  if tail.isEmpty then none else some tail.reverse

/-- Shortest prefix of `cs` ending at the first close bracket of `cs`
(`none` when `cs` holds no close bracket). -/
def upToFirstClose : List Char → Option (List Char)
  | [] => none
  | c :: rest =>
    if c = ']' then some [c]
    else
      match upToFirstClose rest with
      | some body => some (c :: body)
      | none => none

def greedyBracketAux : List Char → Option (List Char)
  | [] => none
  | c :: rest =>
    if c = '[' then
      match upToLastClose rest with
      | some body => some ('[' :: body)
      | none => greedyBracketAux rest
    else greedyBracketAux rest

def lazyBracketAux : List Char → Option (List Char)
  | [] => none
  | c :: rest =>
    if c = '[' then
      match upToFirstClose rest with
      | some body => some ('[' :: body)
      | none => lazyBracketAux rest
    else lazyBracketAux rest

/-- Model of `text.match` with the greedy bracket regex. -/
def greedyBracket (s : String) : Option String :=
  (greedyBracketAux s.data).map String.mk

/-- Model of `text.match` with the lazy bracket regex. -/
def lazyBracket (s : String) : Option String :=
  (lazyBracketAux s.data).map String.mk

/-! ### The tool invocation `runGeminiCLI` (gemini-cli.ts lines 188-276) -/

/-- Resolved value of the `execAsync` promise on success. -/
structure ExecSuccess where
  stdout : String
  stderr : String

/-- Outcome of the `gemini` subprocess invocation: success, or a rejection
whose error object carries the `killed` flag, an optional error code, and
the partial stdout `util.promisify(exec)` attaches to the error (absent for
rejections not originating from the child process). -/
inductive ExecOutcome where
  | ok : ExecSuccess → ExecOutcome
  | err : Bool → Option String → Option String → ExecOutcome

/-- The recovery step shared by the inner `catch` and the outer error
handler: match the lazy bracket regex against the raw text, try to parse the
matched substring, and yield zero findings when anything fails. -/
def extractLazyArray (s : String) : List Json :=
  match lazyBracket s with
  | some sub =>
    match jsonParse sub with
    | some (Json.arr xs) => xs
    -- unreachable: the match starts with an open bracket, so a full parse
    -- of it can only produce an array
    | some _ => []
    | none => []
  | none => []

/-- The `Array.isArray(response)` check and the final `return []`. -/
def directArray (response : Json) : List Json :=
  match response with
  | Json.arr xs => xs
  | _ => []

/-- The parsing section of `runGeminiCLI` applied to the stdout of a
successful invocation (the body of the inner `try`/`catch`):
1. parse the whole output, and when it has a truthy `response` field,
   extract the greedy bracket match of that field's text and parse it;
2. when the parsed output is directly an array, return it as-is;
3. when the whole-output parse (or a step inside the `try`) throws, match
   the lazy bracket regex against the raw output and parse that;
4. every failure yields `[]`.
A step that throws inside the inner `try` (parsing the whole output,
calling `.match` on a non-string `response` field, or parsing the greedy
match) transfers control to the inner `catch`, i.e. to `extractLazyArray`.
When the whole output parses to `null`, reading its `response` field throws
in JS; the `catch` then scans text that can hold no bracket (it fully
parsed as `null`), returning `[]` — the same value this model gives through
`directArray`. -/
def parseGeminiStdout (stdout : String) : List Json :=
  match jsonParse stdout with
  | none => extractLazyArray stdout
  | some response =>
    match getField response "response" with
    | some fieldVal =>
      if truthy fieldVal then
        match fieldVal with
        | Json.str text =>
          match greedyBracket text with
          | some sub =>
            match jsonParse sub with
            | some (Json.arr xs) => xs
            -- unreachable: a bracketed substring cannot fully parse to a
            -- non-array
            | some _ => []
            | none => extractLazyArray stdout
          | none => directArray response
        | _ => extractLazyArray stdout
      else directArray response
    | none => directArray response

/-- `runGeminiCLI`: the findings returned for each subprocess outcome.  The
TS function casts parsed JSON to `Finding[]` without validation, so the
elements are raw JSON values.  On a rejection it extracts findings from the
partial stdout attached to the error when that string is truthy. -/
def runGeminiCLI (outcome : ExecOutcome) : List Json :=
  match outcome with
  | ExecOutcome.ok r => parseGeminiStdout r.stdout
  | ExecOutcome.err _ _ pstdout =>
    match pstdout with
    | some s => if s = "" then [] else extractLazyArray s
    | none => []

/-! ### The finding schema (types.ts lines 4-34)

`FindingSchema` as a checker on raw JSON values: does
`FindingSchema.safeParse` accept the value?  (`z.object` requires each
non-optional field present with the right type; `.optional()` accepts only
absence; `z.enum` fixes the string values; `confidence` carries
`.min(0).max(1)`.) -/

def isStrField (j : Json) (k : String) : Bool :=
  match getField j k with
  | some (Json.str _) => true
  | _ => false

def optStrField (j : Json) (k : String) : Bool :=
  match getField j k with
  | none => true
  | some (Json.str _) => true
  | _ => false

def optNumField (j : Json) (k : String) : Bool :=
  match getField j k with
  | none => true
  | some (Json.num _) => true
  | _ => false

/-- `EvidenceSchema`: `filePath` string, `startLine`/`endLine` optional
numbers. -/
def EvidenceSchemaAccepts (j : Json) : Bool :=
  match j with
  | Json.obj _ =>
    isStrField j "filePath" && optNumField j "startLine" && optNumField j "endLine"
  | _ => false

/-- The `FindingStatus` enum: PASS, FAIL or CLARIFY. -/
def statusEnumAccepts : Option Json → Bool
  | some (Json.str s) => s = "PASS" || s = "FAIL" || s = "CLARIFY"
  | _ => false

/-- The optional `UserDecision` enum: APPROVED, DISMISSED or EDITED. -/
def decisionEnumAccepts : Option Json → Bool
  | none => true
  | some (Json.str s) => s = "APPROVED" || s = "DISMISSED" || s = "EDITED"
  | _ => false

/-- `FindingSchema.safeParse(j).success`. -/
def FindingSchemaAccepts (j : Json) : Bool :=
  match j with
  | Json.obj _ =>
    isStrField j "id" &&
    optStrField j "storyId" &&
    optStrField j "criteriaId" &&
    statusEnumAccepts (getField j "status") &&
    isStrField j "summary" &&
    optStrField j "reason" &&
    optStrField j "suggestion" &&
    (match getField j "evidence" with
     | some (Json.arr es) => es.all EvidenceSchemaAccepts
     | _ => false) &&
    (match getField j "confidence" with
     | some (Json.num q) => decide (0 ≤ q) && decide (q ≤ 1)
     | _ => false) &&
    isStrField j "proposedComment" &&
    decisionEnumAccepts (getField j "userDecision") &&
    optStrField j "userNote"
  | _ => false

/-! ### Reference resolution `parsePRUrl` (github.ts lines 18-31,
gemini-cli.ts lines 26-40)

The regex searches for
`github.com/<seg>/<seg>/pull/<digits>` anywhere in the locator, where each
`<seg>` is one or more non-slash characters; the leftmost match wins.
Greediness is exact here: each segment's character class excludes the
delimiter that follows it, so no backtracking can produce a different
match. -/

structure PRInfo where
  owner : String
  repo : String
  pullNumber : Nat
  cloneUrl : String
deriving DecidableEq

/-- Consume an exact literal prefix. -/
def dropLit : List Char → List Char → Option (List Char)
  | [], cs => some cs
  | _ :: _, [] => none
  | p :: ps, c :: cs => if c = p then dropLit ps cs else none

def githubPattern : List Char := "github.com/".data

def pullSeg : List Char := "/pull/".data

def notSlash (c : Char) : Bool := c != '/'

/-- Try the PR-URL regex anchored at the current position. -/
def matchPRAt (cs : List Char) : Option PRInfo :=
  match dropLit githubPattern cs with
  | none => none
  | some rest =>
    let owner := rest.takeWhile notSlash
    if owner.isEmpty then none
    else
      match rest.dropWhile notSlash with
      | '/' :: rest2 =>
        let repo := rest2.takeWhile notSlash
        if repo.isEmpty then none
        else
          match dropLit pullSeg (rest2.dropWhile notSlash) with
          | none => none
          | some rest3 =>
            let digits := rest3.takeWhile Char.isDigit
            if digits.isEmpty then none
            else
              some { owner := String.mk owner
                     repo := String.mk repo
                     pullNumber := natFromDigits digits
                     cloneUrl :=
                       "https://github.com/" ++ String.mk owner ++ "/" ++
                         String.mk repo ++ ".git" }
      | _ => none

/-- Leftmost regex search: try every start position left to right. -/
def searchPR : List Char → Option PRInfo
  | [] => none
  | c :: rest =>
    match matchPRAt (c :: rest) with
    | some r => some r
    | none => searchPR rest

/-- `parsePRUrl`: resolve a PR locator or throw `Invalid GitHub PR URL`. -/
def parsePRUrl (url : String) : Except String PRInfo :=
  match searchPR url.data with
  | some r => Except.ok r
  | none => Except.error ("Invalid GitHub PR URL: " ++ url)

/-! ### Context assembly `createGeminiContext` (gemini-cli.ts lines
126-183) -/

def diffSizeLimit : Nat := 30000

def truncationMarker : String := "\n... [diff truncated due to size]"

/-- The diff text placed in the context: cut to the first 30000 characters
with the marker appended when over the threshold, unchanged otherwise. -/
def truncatedDiff (diff : String) : String :=
  if diffSizeLimit < diff.length then
    String.mk (diff.data.take diffSizeLimit) ++ truncationMarker
  else diff

def requirementSection : Option String → String
  | some f =>
    "\n## Requirements Document\nRead the file \"" ++ f ++
      "\" in this directory and verify the code changes comply with those requirements.\n"
  | none => ""

def geminiContextTail (requirementFileName : Option String) : String :=
  "\n```\n\n## Output Format\nReturn a JSON array of findings. Each finding must have:\n- id: \"F1\", \"F2\", etc.\n- status: \"PASS\", \"FAIL\", or \"CLARIFY\"  \n- summary: brief description\n- reason: explanation for FAIL/CLARIFY\n- suggestion: fix suggestion\n- evidence: array of \x7b filePath, startLine, endLine \x7d\n- confidence: 0 to 1\n- proposedComment: GitHub comment text\n\nFocus on:\n1. Code correctness and logic errors\n2. Security vulnerabilities\n3. Performance issues\n4. Best practices violations\n5. Missing error handling\n" ++
    (match requirementFileName with
     | some _ => "6. Requirements compliance"
     | none => "") ++
    "\n\nReturn ONLY the JSON array, no other text.\n"

/-- The full `GEMINI.md` content written by `createGeminiContext`. -/
def createGeminiContext (prTitle prDescription diff : String)
    (requirementFileName : Option String) : String :=
  "# PR Review Context\n\n## PR Title\n" ++ prTitle ++
    "\n\n## PR Description\n" ++ prDescription ++
    "\n\n## Your Task\nYou are reviewing this Pull Request. Analyze the code changes and provide findings.\n\n" ++
    requirementSection requirementFileName ++
    "\n\n## Changes (Diff)\n```diff\n" ++
    truncatedDiff diff ++
    geminiContextTail requirementFileName

/-! ### Diff derivation `getDiffFromRepo` (gemini-cli.ts lines 92-107)

The git environment records the outcome of each candidate diff command.
The function also returns the list of commands actually executed, so that
"later bases are not attempted" is an observable statement. -/

structure DiffEnv where
  mainDiff : Except String String
  masterDiff : Except String String
  headDiff : Except String String

def diffCmdMain : String := "git diff origin/main...HEAD"

def diffCmdMaster : String := "git diff origin/master...HEAD"

def diffCmdHead : String := "git diff HEAD~1"

/-- `getDiffFromRepo`: try the primary base, on error the secondary, on
error the immediately preceding commit; the last error propagates. -/
def getDiffFromRepo (env : DiffEnv) : Except String String × List String :=
  match env.mainDiff with
  | Except.ok out => (Except.ok out, [diffCmdMain])
  | Except.error _ =>
    match env.masterDiff with
    | Except.ok out => (Except.ok out, [diffCmdMain, diffCmdMaster])
    | Except.error _ =>
      (env.headDiff, [diffCmdMain, diffCmdMaster, diffCmdHead])

/-! ### The review pipeline `reviewWithGeminiCLI` (gemini-cli.ts lines
45-59, 281-327)

The environment fixes the outcome of every external call of one run.  The
tracked filesystem state is a single `Bool`: does the per-PR workspace
directory exist. -/

structure PipelineEnv where
  prUrl : String
  prTitle : String
  prDescription : String
  /-- Outcome of clone + fetch + checkout. -/
  cloneResult : Except String Unit
  /-- Whether a failed clone left a leftover directory behind. -/
  cloneLeavesDir : Bool
  /-- The requirement file's name, when one was provided. -/
  requirementFile : Option String
  /-- Outcome of writing the requirement file into the workspace. -/
  copyResult : Except String Unit
  diffEnv : DiffEnv
  /-- Outcome of writing `GEMINI.md`. -/
  contextResult : Except String Unit
  execOutcome : ExecOutcome

/-- `setupTempDir`: remove a stale directory for the same key if present
(the directory itself is created later, by `git clone`). -/
def setupTempDir (repoDirExists : Bool) : Bool :=
  if repoDirExists then false else repoDirExists

/-- `cleanup`: remove the workspace directory if it exists. -/
def cleanup (repoDirExists : Bool) : Bool :=
  if repoDirExists then false else repoDirExists

/-- `cloneAndCheckoutPR`: on success the workspace directory exists; on
failure the clone may or may not have left a directory. -/
def cloneAndCheckoutPR (env : PipelineEnv) (dirBefore : Bool) :
    Except String Unit × Bool :=
  match env.cloneResult with
  | Except.ok _ => (Except.ok (), true)
  | Except.error e => (Except.error e, dirBefore || env.cloneLeavesDir)

/-- `copyRequirementFile` step of the pipeline: when a requirement file is
provided, write it as `REQUIREMENTS-<name>` and use that name. -/
def copyRequirementStep (env : PipelineEnv) : Except String (Option String) :=
  match env.requirementFile with
  | none => Except.ok none
  | some name =>
    match env.copyResult with
    | Except.ok _ => Except.ok (some ("REQUIREMENTS-" ++ name))
    | Except.error e => Except.error e

/-- The body of the pipeline's `try` block: clone, copy the requirement
file, derive the diff, write the context, invoke the tool.  Returns the
outcome and the workspace-directory state at the moment the block exits
(normally or by throw). -/
def pipelineBody (env : PipelineEnv) (dirAfterSetup : Bool) :
    Except String (List Json) × Bool :=
  match cloneAndCheckoutPR env dirAfterSetup with
  | (Except.error e, dir) => (Except.error e, dir)
  | (Except.ok _, _) =>
    match copyRequirementStep env with
    | Except.error e => (Except.error e, true)
    | Except.ok reqName =>
      match (getDiffFromRepo env.diffEnv).1 with
      | Except.error e => (Except.error e, true)
      | Except.ok diff =>
        match env.contextResult with
        | Except.error e => (Except.error e, true)
        | Except.ok _ =>
          let _context :=
            createGeminiContext env.prTitle env.prDescription diff reqName
          (Except.ok (runGeminiCLI env.execOutcome), true)

/-- `reviewWithGeminiCLI`: parse the locator, set up the workspace key,
then run the pipeline body inside `try/finally` whose `finally` is
`cleanup`.  Returns the outcome and the final workspace-directory state. -/
def reviewWithGeminiCLI (env : PipelineEnv) (initialDirExists : Bool) :
    Except String (List Json) × Bool :=
  match parsePRUrl env.prUrl with
  | Except.error e => (Except.error e, initialDirExists)
  | Except.ok _ =>
    let afterSetup := setupTempDir initialDirExists
    match pipelineBody env afterSetup with
    | (result, dirAtExit) => (result, cleanup dirAtExit)

/-! ### The finding aggregator `generateDraftComment` (gemini.ts lines
407-441) over the typed finding model (types.ts lines 4-36) -/

inductive FindingStatus where
  | PASS
  | FAIL
  | CLARIFY
deriving DecidableEq

inductive UserDecision where
  | APPROVED
  | DISMISSED
  | EDITED
deriving DecidableEq

structure Evidence where
  filePath : String
  startLine : Option Int
  endLine : Option Int
deriving DecidableEq

structure Finding where
  id : String
  storyId : Option String
  criteriaId : Option String
  status : FindingStatus
  summary : String
  reason : Option String
  suggestion : Option String
  evidence : List Evidence
  confidence : Rat
  proposedComment : String
  userDecision : Option UserDecision
  userNote : Option String
deriving DecidableEq

def statusText : FindingStatus → String
  | FindingStatus.PASS => "PASS"
  | FindingStatus.FAIL => "FAIL"
  | FindingStatus.CLARIFY => "CLARIFY"

/-- The status icon selected per finding. -/
def statusIcon (st : FindingStatus) : String :=
  if st = FindingStatus.PASS then "✅"
  else if st = FindingStatus.FAIL then "❌"
  else "❓"

/-- The evidence line: first evidence entry only; the line-range part is
guarded by JS truthiness of `startLine`/`endLine` (so a line number 0 is
treated as absent). -/
def renderEvidence : List Evidence → String
  | [] => ""
  | ev :: _ =>
    "- File: `" ++ ev.filePath ++ "`" ++
      (match ev.startLine with
       | some s =>
         if s = 0 then ""
         else
           " (line " ++ toString s ++
             (match ev.endLine with
              | some e => if e = 0 then "" else "-" ++ toString e
              | none => "") ++ ")"
       | none => "") ++ "\n"

/-- The text appended to the comment for one included finding (the body of
the `for` loop). -/
def renderFinding (f : Finding) : String :=
  "### " ++ statusIcon f.status ++ " " ++ statusText f.status ++ ": " ++
    f.summary ++ "\n" ++
    renderEvidence f.evidence ++
    (match f.reason with
     | some r => if r = "" then "" else "- Reason: " ++ r ++ "\n"
     | none => "") ++
    (match f.suggestion with
     | some sg => if sg = "" then "" else "- Suggestion: " ++ sg ++ "\n"
     | none => "") ++
    "\n"

/-- The inclusion filter: `f.userDecision === 'APPROVED' || !f.userDecision`. -/
def keepFinding (f : Finding) : Bool :=
  f.userDecision == some UserDecision.APPROVED || f.userDecision == none

def noIssuesMessage : String := "## PR Review\n\n✅ No issues found."

def summaryHeader : String := "## PR Review Summary\n\n"

/-- `generateDraftComment`: filter to the approved-or-undecided findings,
return the literal no-issues message when none remain, otherwise accumulate
the rendered findings after the summary header. -/
def generateDraftComment (findings : List Finding) : String :=
  let approvedFindings := findings.filter keepFinding
  if approvedFindings.length = 0 then noIssuesMessage
  else approvedFindings.foldl (fun comment f => comment ++ renderFinding f) summaryHeader

/-! ### The document indexer `uploadToFileSearch` (gemini.ts lines 230-287)

The environment records the file-search store creation outcome, the upload
call's outcome (with the operation's initial done flag), and the done flag
observed by each poll.  The run records the final result, whether the temp
file still exists, the number of poll attempts, and the duration of every
sleep performed. -/

structure IndexEnv where
  createStore : Except String String
  uploadStart : Except String Bool
  pollDone : Nat → Bool

def pollIntervalMs : Nat := 2000

def maxAttempts : Nat := 30

/-- The poll loop `while (!operation.done && attempts < maxAttempts)`:
sleep 2000 ms, re-fetch the operation, increment the attempt counter.
Structured on the remaining attempt budget (`maxAttempts - attempts`). -/
def pollLoop (get : Nat → Bool) : Nat → Bool → Nat → List Nat →
    Bool × Nat × List Nat
  | 0, d, attempts, sleeps => (d, attempts, sleeps)
  | Nat.succ budget, d, attempts, sleeps =>
    if d then (d, attempts, sleeps)
    else pollLoop get budget (get attempts) (attempts + 1) (sleeps ++ [pollIntervalMs])

structure IndexRun where
  result : Except String String
  tempFileExists : Bool
  attempts : Nat
  sleeps : List Nat

/-- `uploadToFileSearch`: create the store, write the temp file, then in a
`try/finally` upload the file, poll until done or the attempt bound, throw
`File processing timeout` when still not done, and always unlink the temp
file in the `finally`. -/
def uploadToFileSearch (env : IndexEnv) : IndexRun :=
  match env.createStore with
  | Except.error e =>
    -- store creation throws before the temp file is written
    { result := Except.error e, tempFileExists := false, attempts := 0, sleeps := [] }
  | Except.ok storeName =>
    -- temp file written here; every path below runs the `finally` unlink
    match env.uploadStart with
    | Except.error e =>
      { result := Except.error e, tempFileExists := false, attempts := 0, sleeps := [] }
    | Except.ok done0 =>
      match pollLoop env.pollDone maxAttempts done0 0 [] with
      | (done, attempts, sleeps) =>
        if done then
          { result := Except.ok storeName, tempFileExists := false
            attempts := attempts, sleeps := sleeps }
        else
          { result := Except.error "File processing timeout"
            tempFileExists := false, attempts := attempts, sleeps := sleeps }

/-! ### Spec-side characterizations and concrete sample values -/

/-- Concatenation of the rendered blocks of a finding list, used to state
what `generateDraftComment`'s accumulation loop produces. -/
def renderAll : List Finding → String
  | [] => ""
  | f :: rest => renderFinding f ++ renderAll rest

/-- A locator contains a match of the PR-URL pattern: some occurrence of
`github.com/` followed by a nonempty slash-free owner, a slash, a nonempty
slash-free repo, `/pull/`, and at least one digit. -/
def ValidLocator (s : String) : Prop :=
  ∃ pre owner repo ds rest : List Char,
    s.data =
      pre ++ (githubPattern ++ (owner ++ ('/' :: (repo ++ (pullSeg ++ (ds ++ rest)))))) ∧
    owner ≠ [] ∧ '/' ∉ owner ∧ repo ≠ [] ∧ '/' ∉ repo ∧ ds ≠ [] ∧
    ∀ c ∈ ds, c.isDigit

/-- Stdout of the spec's first recovery example: a JSON document whose
`response` field's text wraps a bracketed findings array in noise. -/
def c4NestedStdout : String :=
  "\x7b\"response\":\"noise [\x7b\\\"id\\\":\\\"F1\\\"\x7d] noise\"\x7d"

/-- Stdout of the spec's second recovery example: directly a JSON array. -/
def c4DirectStdout : String := "[\x7b\"id\":\"F2\"\x7d]"

/-- Stdout of the spec's third recovery example: not JSON at all. -/
def c4GarbageStdout : String := "not json at all"

/-- A raw output that parses to a complete findings array whose single
finding violates `FindingSchema` (status outside the enum, confidence 5). -/
def invalidFindingStdout : String :=
  "[\x7b\"id\":\"F1\",\"status\":\"BOGUS\",\"summary\":\"s\",\"evidence\":[],\"confidence\":5,\"proposedComment\":\"c\"\x7d]"

/-- The JSON value of the schema-violating finding in
`invalidFindingStdout`. -/
def invalidFindingJson : Json :=
  Json.obj
    [("id", Json.str "F1"), ("status", Json.str "BOGUS"),
     ("summary", Json.str "s"), ("evidence", Json.arr []),
     ("confidence", Json.num 5), ("proposedComment", Json.str "c")]

/-- Partial stdout a timed-out subprocess can leave on the rejection error:
it contains an extractable bracketed findings array. -/
def timeoutPartialStdout : String := "partial [\x7b\"id\":\"F1\"\x7d]"

def samplePipelineEnv : PipelineEnv :=
  { prUrl := "https://github.com/acme/widgets/pull/42"
    prTitle := "t"
    prDescription := "d"
    cloneResult := Except.error "clone failed"
    cloneLeavesDir := true
    requirementFile := none
    copyResult := Except.ok ()
    diffEnv :=
      { mainDiff := Except.error "a", masterDiff := Except.error "b"
        headDiff := Except.error "c" }
    contextResult := Except.ok ()
    execOutcome := ExecOutcome.err true none none }

def sampleIndexEnv : IndexEnv :=
  { createStore := Except.ok "store-1"
    uploadStart := Except.ok false
    pollDone := fun _ => false }

def sampleFindingA : Finding :=
  { id := "F1", storyId := none, criteriaId := none
    status := FindingStatus.FAIL, summary := "bug"
    reason := some "why", suggestion := some "fix"
    evidence := [{ filePath := "src/a.ts", startLine := some 3, endLine := some 5 }]
    confidence := 9 / 10, proposedComment := "c"
    userDecision := some UserDecision.APPROVED, userNote := none }

def sampleFindingB : Finding :=
  { id := "F2", storyId := none, criteriaId := none
    status := FindingStatus.PASS, summary := "fine"
    reason := none, suggestion := none
    evidence := [], confidence := 1, proposedComment := "c2"
    userDecision := some UserDecision.DISMISSED, userNote := none }

def sampleFindingE : Finding :=
  { id := "F3", storyId := none, criteriaId := none
    status := FindingStatus.CLARIFY, summary := "unclear"
    reason := some "r", suggestion := none
    evidence := [], confidence := 1 / 2, proposedComment := "c3"
    userDecision := some UserDecision.EDITED, userNote := none }

/-! ## Theorems -/

/-! ### Helper lemmas -/

theorem cleanup_eq_false (b : Bool) : cleanup b = false := by
  cases b <;> rfl

theorem data_append (a b : String) : (a ++ b).data = a.data ++ b.data := rfl

theorem length_mk (l : List Char) : (String.mk l).length = l.length := rfl

theorem string_length_append (a b : String) : (a ++ b).length = a.length + b.length := by
  show (a.data ++ b.data).length = a.data.length + b.data.length
  exact List.length_append a.data b.data

/-! ### C6: diff base fallback order -/

/-- C6: diff derivation tries `origin/main`, then `origin/master`, then
`HEAD~1`, in that order; the first success is returned and later bases are
not attempted (the executed-command trace stops at the success); a failed
primary with a successful secondary yields the secondary's diff without
error; and the operation errors exactly when all three attempts error. -/
theorem getDiffFromRepo_fallback_order :
    (∀ (env : DiffEnv) (s : String), env.mainDiff = Except.ok s →
      getDiffFromRepo env = (Except.ok s, [diffCmdMain])) ∧
    (∀ (env : DiffEnv) (e : String) (s : String),
      env.mainDiff = Except.error e → env.masterDiff = Except.ok s →
      getDiffFromRepo env = (Except.ok s, [diffCmdMain, diffCmdMaster])) ∧
    (∀ env : DiffEnv,
      (∃ e, (getDiffFromRepo env).1 = Except.error e) ↔
        ((∃ e1, env.mainDiff = Except.error e1) ∧
         (∃ e2, env.masterDiff = Except.error e2) ∧
         (∃ e3, env.headDiff = Except.error e3))) := by
  refine ⟨?_, ?_, ?_⟩
  · intro env s h
    unfold getDiffFromRepo
    rw [h]
  · intro env e s h1 h2
    unfold getDiffFromRepo
    rw [h1, h2]
  · intro env
    unfold getDiffFromRepo
    cases hm : env.mainDiff with
    | ok s => simp [hm]
    | error e1 =>
      cases hms : env.masterDiff with
      | ok s => simp
      | error e2 =>
        cases hh : env.headDiff with
        | ok s => simp
        | error e3 => simp

/-- C6 witness: with the primary base failing and the secondary available,
the secondary's diff is returned and the last-resort base is not
attempted. -/
theorem getDiffFromRepo_fallback_order_witness :
    getDiffFromRepo
        { mainDiff := Except.error "unknown revision origin/main"
          masterDiff := Except.ok "diff-from-master"
          headDiff := Except.error "unused" } =
      (Except.ok "diff-from-master", [diffCmdMain, diffCmdMaster]) :=
  getDiffFromRepo_fallback_order.2.1 _ "unknown revision origin/main"
    "diff-from-master" rfl rfl

/-! ### C5: diff size cap in the review context -/

/-- C5: the diff text placed in the review context is the input diff when
its length is at most 30000 characters (no marker appended), and otherwise
its first 30000 characters followed by the truncation marker; the resulting
text never exceeds 30000 plus the marker's length, and the assembled
context contains exactly that capped text. -/
theorem createGeminiContext_diff_cap :
    ∀ (prTitle prDescription diff : String) (req : Option String),
      (∃ pre post,
        createGeminiContext prTitle prDescription diff req =
          pre ++ truncatedDiff diff ++ post) ∧
      (diff.length ≤ 30000 → truncatedDiff diff = diff) ∧
      (30000 < diff.length →
        truncatedDiff diff =
          String.mk (diff.data.take 30000) ++ truncationMarker ∧
        (truncatedDiff diff).length = 30000 + truncationMarker.length) ∧
      (truncatedDiff diff).length ≤ 30000 + truncationMarker.length := by
  intro prTitle prDescription diff req
  have hdl : diff.data.length = diff.length := rfl
  refine ⟨?_, ?_, ?_, ?_⟩
  · exact ⟨"# PR Review Context\n\n## PR Title\n" ++ prTitle ++
      "\n\n## PR Description\n" ++ prDescription ++
      "\n\n## Your Task\nYou are reviewing this Pull Request. Analyze the code changes and provide findings.\n\n" ++
      requirementSection req ++ "\n\n## Changes (Diff)\n```diff\n",
      geminiContextTail req, rfl⟩
  · intro h
    unfold truncatedDiff
    rw [if_neg]
    unfold diffSizeLimit
    omega
  · intro h
    have hd : diffSizeLimit < diff.length := h
    constructor
    · unfold truncatedDiff
      rw [if_pos hd]
      rfl
    · unfold truncatedDiff
      rw [if_pos hd]
      rw [string_length_append, length_mk, List.length_take, hdl]
      unfold diffSizeLimit at *
      omega
  · unfold truncatedDiff
    split
    · rw [string_length_append, length_mk, List.length_take, hdl]
      unfold diffSizeLimit at *
      omega
    · unfold diffSizeLimit at *
      omega

/-- C5 witness: a one-character diff is embedded unchanged, and its capped
form obeys the length bound. -/
theorem createGeminiContext_diff_cap_witness :
    truncatedDiff "x" = "x" ∧
    (truncatedDiff "x").length ≤ 30000 + truncationMarker.length :=
  ⟨(createGeminiContext_diff_cap "t" "d" "x" none).2.1 (by decide),
   (createGeminiContext_diff_cap "t" "d" "x" none).2.2.2⟩

/-! ### C1: workspace cleanup on every pipeline exit path -/

/-- C1: for every run of the review pipeline whose locator resolves (so a
workspace key is computed at all), the workspace directory is absent when
the pipeline returns — across every combination of clone success/failure
(with or without a leftover directory), requirement-copy outcome, diff
derivation outcome, context-write outcome, and tool-invocation outcome
(success, timeout or other rejection), and regardless of whether a stale
directory existed beforehand. -/
theorem reviewWithGeminiCLI_cleanup :
    ∀ (env : PipelineEnv) (initialDirExists : Bool) (info : PRInfo),
      parsePRUrl env.prUrl = Except.ok info →
      (reviewWithGeminiCLI env initialDirExists).2 = false := by
  intro env initialDirExists info h
  unfold reviewWithGeminiCLI
  rw [h]
  exact cleanup_eq_false _

/-- C1 witness: a run whose clone fails (leaving a leftover directory) and
whose git and tool outcomes all fail still ends with the workspace
directory absent. -/
theorem reviewWithGeminiCLI_cleanup_witness :
    (reviewWithGeminiCLI samplePipelineEnv true).2 = false :=
  reviewWithGeminiCLI_cleanup samplePipelineEnv true
    { owner := "acme", repo := "widgets", pullNumber := 42
      cloneUrl := "https://github.com/acme/widgets.git" } rfl

/-! ### C9: indexing poll bound, timeout error, temp-file cleanup -/

theorem pollLoop_invariant (get : Nat → Bool) :
    ∀ (budget : Nat) (d : Bool) (a : Nat) (sleeps : List Nat),
      a ≤ (pollLoop get budget d a sleeps).2.1 ∧
      (pollLoop get budget d a sleeps).2.1 ≤ a + budget ∧
      (pollLoop get budget d a sleeps).2.2 =
        sleeps ++ List.replicate ((pollLoop get budget d a sleeps).2.1 - a) pollIntervalMs := by
  intro budget
  induction budget with
  | zero =>
    intro d a sleeps
    simp [pollLoop]
  | succ n ih =>
    intro d a sleeps
    unfold pollLoop
    cases d with
    | true => simp
    | false =>
      simp only [Bool.false_eq_true, if_false]
      obtain ⟨h1, h2, h3⟩ := ih (get a) (a + 1) (sleeps ++ [pollIntervalMs])
      refine ⟨by omega, by omega, ?_⟩
      rw [h3, List.append_assoc]
      congr 1
      have hk : (pollLoop get n (get a) (a + 1) (sleeps ++ [pollIntervalMs])).2.1 - a =
          ((pollLoop get n (get a) (a + 1) (sleeps ++ [pollIntervalMs])).2.1 - (a + 1)) + 1 := by
        omega
      rw [hk]
      rw [List.replicate_succ]
      rfl

theorem pollLoop_never_done (get : Nat → Bool) (hget : ∀ i, get i = false) :
    ∀ (budget : Nat) (a : Nat) (sleeps : List Nat),
      pollLoop get budget false a sleeps =
        (false, a + budget,
          sleeps ++ List.replicate budget pollIntervalMs) := by
  intro budget
  induction budget with
  | zero =>
    intro a sleeps
    simp [pollLoop]
  | succ n ih =>
    intro a sleeps
    unfold pollLoop
    simp only [Bool.false_eq_true, if_false]
    rw [hget a, ih (a + 1) (sleeps ++ [pollIntervalMs])]
    rw [List.append_assoc]
    have h1 : a + 1 + n = a + (n + 1) := by omega
    have h2 : [pollIntervalMs] ++ List.replicate n pollIntervalMs =
        List.replicate (n + 1) pollIntervalMs := by
      rw [List.replicate_succ]
      rfl
    rw [h1, h2]

/-- C9: the document-indexing operation polls on a fixed 2000 ms interval
(one sleep of exactly 2000 ms per poll attempt) for at most 30 attempts;
when the store is created and the upload starts but indexing never
completes, it performs exactly 30 attempts and fails with the
`File processing timeout` error; and the uploaded temp file is absent after
every exit path (store-creation failure, upload failure, timeout, or
success). -/
theorem uploadToFileSearch_spec :
    ∀ env : IndexEnv,
      (uploadToFileSearch env).tempFileExists = false ∧
      (uploadToFileSearch env).attempts ≤ maxAttempts ∧
      (uploadToFileSearch env).sleeps =
        List.replicate (uploadToFileSearch env).attempts pollIntervalMs ∧
      (∀ name, env.createStore = Except.ok name →
        env.uploadStart = Except.ok false →
        (∀ i, env.pollDone i = false) →
        (uploadToFileSearch env).result = Except.error "File processing timeout" ∧
        (uploadToFileSearch env).attempts = maxAttempts) := by
  intro env
  refine ⟨?_, ?_, ?_, ?_⟩
  · cases hc : env.createStore with
    | error e => simp [uploadToFileSearch, hc]
    | ok name =>
      cases hu : env.uploadStart with
      | error e => simp [uploadToFileSearch, hc, hu]
      | ok d0 =>
        rcases hp : pollLoop env.pollDone maxAttempts d0 0 [] with ⟨done, attempts, sleeps⟩
        cases done <;> simp [uploadToFileSearch, hc, hu, hp]
  · cases hc : env.createStore with
    | error e => simp [uploadToFileSearch, hc, maxAttempts]
    | ok name =>
      cases hu : env.uploadStart with
      | error e => simp [uploadToFileSearch, hc, hu, maxAttempts]
      | ok d0 =>
        obtain ⟨h1, h2, h3⟩ := pollLoop_invariant env.pollDone maxAttempts d0 0 []
        rcases hp : pollLoop env.pollDone maxAttempts d0 0 [] with ⟨done, attempts, sleeps⟩
        rw [hp] at h2
        cases done <;> simpa [uploadToFileSearch, hc, hu, hp] using h2
  · cases hc : env.createStore with
    | error e => simp [uploadToFileSearch, hc]
    | ok name =>
      cases hu : env.uploadStart with
      | error e => simp [uploadToFileSearch, hc, hu]
      | ok d0 =>
        obtain ⟨h1, h2, h3⟩ := pollLoop_invariant env.pollDone maxAttempts d0 0 []
        rcases hp : pollLoop env.pollDone maxAttempts d0 0 [] with ⟨done, attempts, sleeps⟩
        rw [hp] at h3
        cases done <;> simpa [uploadToFileSearch, hc, hu, hp] using h3
  · intro name hc hu hpoll
    simp only [uploadToFileSearch, hc, hu]
    rw [pollLoop_never_done env.pollDone hpoll maxAttempts 0 []]
    simp

/-- C9 witness: a run whose indexing never completes performs the full 30
attempts, sleeps 2000 ms each time, fails with the timeout error, and
leaves no temp file. -/
theorem uploadToFileSearch_spec_witness :
    (uploadToFileSearch sampleIndexEnv).tempFileExists = false ∧
    (uploadToFileSearch sampleIndexEnv).result =
      Except.error "File processing timeout" ∧
    (uploadToFileSearch sampleIndexEnv).attempts = maxAttempts :=
  ⟨(uploadToFileSearch_spec sampleIndexEnv).1,
   ((uploadToFileSearch_spec sampleIndexEnv).2.2.2 "store-1" rfl rfl
     (fun _ => rfl)).1,
   ((uploadToFileSearch_spec sampleIndexEnv).2.2.2 "store-1" rfl rfl
     (fun _ => rfl)).2⟩

/-! ### C2: findings are returned without schema validation (code bug) -/

/-- C2 (divergence witness): `runGeminiCLI` performs no schema validation.
On a raw output that parses to a findings array whose single finding has a
status outside the PASS/FAIL/CLARIFY enum and confidence 5 (outside the
closed unit interval), the finding is returned in the batch as-is even
though `FindingSchema` rejects it — the claim (and the repository's own
guardrail that returned JSON must match the Zod schema) requires it to be
dropped. -/
theorem runGeminiCLI_no_schema_validation :
    runGeminiCLI (ExecOutcome.ok { stdout := invalidFindingStdout, stderr := "" }) =
      [invalidFindingJson] ∧
    FindingSchemaAccepts invalidFindingJson = false ∧
    getField invalidFindingJson "confidence" = some (Json.num 5) ∧
    ¬ ((5 : Rat) ≤ 1) :=
  ⟨rfl, rfl, rfl, by norm_num⟩

/-! ### C3: recoverable tool-invocation failures -/

/-- C3 counterexample: the claim says a timeout yields the empty finding
sequence, but a timed-out invocation whose error carries partial stdout
containing a bracketed findings array returns that non-empty array
(`util.promisify(exec)` attaches collected stdout to the timeout error, and
the handler scans `error.stdout` without distinguishing timeouts). -/
theorem runGeminiCLI_timeout_counterexample :
    runGeminiCLI (ExecOutcome.err true (some "ETIMEDOUT") (some timeoutPartialStdout)) =
      [Json.obj [("id", Json.str "F1")]] ∧
    ([Json.obj [("id", Json.str "F1")]] : List Json) ≠ [] :=
  ⟨rfl, by simp⟩

/-- C3 (amended): the tool invocation never propagates an exception — it is
a total function of the subprocess outcome — and it returns the empty
finding sequence whenever the subprocess fails (timeout or otherwise) with
no partial stdout on the error, or with partial stdout from which the lazy
bracket scan extracts nothing parseable, and whenever a successful exit's
output defeats every recovery stage; but a failed or timed-out invocation
whose partial stdout contains a parseable bracketed array returns those
findings rather than the empty sequence. -/
theorem runGeminiCLI_recoverable_empty :
    (∀ (killed : Bool) (code : Option String),
      runGeminiCLI (ExecOutcome.err killed code none) = []) ∧
    (∀ (killed : Bool) (code : Option String) (s : String),
      lazyBracket s = none →
      runGeminiCLI (ExecOutcome.err killed code (some s)) = []) ∧
    (∀ (killed : Bool) (code : Option String) (s t : String),
      lazyBracket s = some t → jsonParse t = none →
      runGeminiCLI (ExecOutcome.err killed code (some s)) = []) ∧
    (∀ r : ExecSuccess, jsonParse r.stdout = none → lazyBracket r.stdout = none →
      runGeminiCLI (ExecOutcome.ok r) = []) ∧
    (∀ (r : ExecSuccess) (t : String),
      jsonParse r.stdout = none → lazyBracket r.stdout = some t →
      jsonParse t = none → runGeminiCLI (ExecOutcome.ok r) = []) ∧
    (∀ (r : ExecSuccess) (v : Json),
      jsonParse r.stdout = some v → getField v "response" = none →
      (∀ xs, v ≠ Json.arr xs) → runGeminiCLI (ExecOutcome.ok r) = []) := by
  refine ⟨?_, ?_, ?_, ?_, ?_, ?_⟩
  · intro killed code
    rfl
  · intro killed code s h
    show (if s = "" then [] else extractLazyArray s) = []
    split
    · rfl
    · unfold extractLazyArray
      rw [h]
  · intro killed code s t h1 h2
    show (if s = "" then [] else extractLazyArray s) = []
    split
    · rfl
    · simp [extractLazyArray, h1, h2]
  · intro r h1 h2
    show parseGeminiStdout r.stdout = []
    simp [parseGeminiStdout, extractLazyArray, h1, h2]
  · intro r t h1 h2 h3
    show parseGeminiStdout r.stdout = []
    simp [parseGeminiStdout, extractLazyArray, h1, h2, h3]
  · intro r v h1 h2 h3
    show parseGeminiStdout r.stdout = []
    simp only [parseGeminiStdout, h1, h2]
    cases v with
    | arr xs => exact absurd rfl (h3 xs)
    | null => rfl
    | bool b => rfl
    | num q => rfl
    | str s => rfl
    | obj fs => rfl

/-- C3 witness: a crash with no bracketed content in the partial stdout
yields the empty finding sequence. -/
theorem runGeminiCLI_recoverable_empty_witness :
    runGeminiCLI (ExecOutcome.err false (some "1") (some "gemini crashed")) = [] :=
  runGeminiCLI_recoverable_empty.2.1 false (some "1") "gemini crashed" rfl

/-! ### C4: the staged output-recovery chain -/

theorem upToFirstClose_append (mid post : List Char) (h : ']' ∉ mid) :
    upToFirstClose (mid ++ ']' :: post) = some (mid ++ [']']) := by
  induction mid with
  | nil =>
    show upToFirstClose (']' :: post) = some [']']
    unfold upToFirstClose
    rw [if_pos rfl]
  | cons c cs ih =>
    have hc : ¬ c = ']' := fun e => h (e ▸ List.mem_cons_self c cs)
    have ih2 := ih (fun hm => h (List.mem_cons_of_mem c hm))
    show upToFirstClose (c :: (cs ++ ']' :: post)) = some (c :: (cs ++ [']']))
    unfold upToFirstClose
    rw [if_neg hc, ih2]

theorem lazyBracketAux_append (pre mid post : List Char)
    (h1 : '[' ∉ pre) (h2 : ']' ∉ mid) :
    lazyBracketAux (pre ++ '[' :: (mid ++ ']' :: post)) =
      some ('[' :: (mid ++ [']'])) := by
  induction pre with
  | nil =>
    show lazyBracketAux ('[' :: (mid ++ ']' :: post)) = some ('[' :: (mid ++ [']']))
    unfold lazyBracketAux
    rw [if_pos rfl, upToFirstClose_append mid post h2]
  | cons c cs ih =>
    have hc : ¬ c = '[' := fun e => h1 (e ▸ List.mem_cons_self c cs)
    have ih2 := ih (fun hm => h1 (List.mem_cons_of_mem c hm))
    show lazyBracketAux (c :: (cs ++ '[' :: (mid ++ ']' :: post))) =
      some ('[' :: (mid ++ [']']))
    unfold lazyBracketAux
    rw [if_neg hc, ih2]

/-- C4: the output-recovery chain on the spec's three examples and its
staging contract.  The nested-field example yields the one finding with id
"F1"; the direct-array example yields the one finding with id "F2"; the
non-JSON example yields the empty sequence.  Moreover: when the whole
output parses to a document with a truthy textual `response` field whose
greedy bracket match parses to an array, stage 1 returns that array; when
the whole output parses directly to an array (stage 1 inapplicable, since
an array has no `response` field), stage 2 returns it; stage 3 runs exactly
when the whole-output parse fails, and it parses the first bracketed
substring of the raw text — the substring from the first usable open
bracket to the first close bracket after it. -/
theorem runGeminiCLI_recovery_chain :
    (runGeminiCLI (ExecOutcome.ok { stdout := c4NestedStdout, stderr := "" }) =
      [Json.obj [("id", Json.str "F1")]]) ∧
    (runGeminiCLI (ExecOutcome.ok { stdout := c4DirectStdout, stderr := "" }) =
      [Json.obj [("id", Json.str "F2")]]) ∧
    (runGeminiCLI (ExecOutcome.ok { stdout := c4GarbageStdout, stderr := "" }) = []) ∧
    (∀ (r : ExecSuccess) (v : Json) (text sub : String) (xs : List Json),
      jsonParse r.stdout = some v →
      getField v "response" = some (Json.str text) → text ≠ "" →
      greedyBracket text = some sub → jsonParse sub = some (Json.arr xs) →
      runGeminiCLI (ExecOutcome.ok r) = xs) ∧
    (∀ (r : ExecSuccess) (xs : List Json),
      jsonParse r.stdout = some (Json.arr xs) →
      runGeminiCLI (ExecOutcome.ok r) = xs) ∧
    (∀ r : ExecSuccess, jsonParse r.stdout = none →
      runGeminiCLI (ExecOutcome.ok r) = extractLazyArray r.stdout) ∧
    (∀ pre mid post : List Char, '[' ∉ pre → ']' ∉ mid →
      lazyBracket (String.mk (pre ++ '[' :: (mid ++ ']' :: post))) =
        some (String.mk ('[' :: (mid ++ [']'])))) := by
  refine ⟨rfl, rfl, rfl, ?_, ?_, ?_, ?_⟩
  · intro r v text sub xs h1 h2 h3 h4 h5
    show parseGeminiStdout r.stdout = xs
    have htr : truthy (Json.str text) = true := by
      simp [truthy, h3]
    simp [parseGeminiStdout, h1, h2, htr, h4, h5]
  · intro r xs h1
    show parseGeminiStdout r.stdout = xs
    simp [parseGeminiStdout, h1, getField, directArray]
  · intro r h1
    show parseGeminiStdout r.stdout = extractLazyArray r.stdout
    simp [parseGeminiStdout, h1]
  · intro pre mid post h1 h2
    unfold lazyBracket
    show (lazyBracketAux (pre ++ '[' :: (mid ++ ']' :: post))).map String.mk = _
    rw [lazyBracketAux_append pre mid post h1 h2]
    rfl

/-- C4 witness: stage 2 applied to a concrete direct-array output, and
stage 3's first-bracketed-substring scan on concrete noise. -/
theorem runGeminiCLI_recovery_chain_witness :
    runGeminiCLI (ExecOutcome.ok { stdout := "[1]", stderr := "" }) = [Json.num 1] ∧
    lazyBracket (String.mk (['x', ' '] ++ '[' :: (['1'] ++ ']' :: ['y']))) =
      some (String.mk ('[' :: (['1'] ++ [']']))) :=
  ⟨runGeminiCLI_recovery_chain.2.2.2.2.1 { stdout := "[1]", stderr := "" }
     [Json.num 1] rfl,
   runGeminiCLI_recovery_chain.2.2.2.2.2.2 ['x', ' '] ['1'] ['y']
     (by decide) (by decide)⟩

/-! ### C8: draft-comment derivation from findings and decisions -/

theorem foldl_render_eq (fs : List Finding) :
    ∀ acc : String,
      fs.foldl (fun comment f => comment ++ renderFinding f) acc =
        acc ++ renderAll fs := by
  induction fs with
  | nil =>
    intro acc
    show acc = acc ++ ""
    rw [String.append_empty]
  | cons f rest ih =>
    intro acc
    show rest.foldl (fun comment f => comment ++ renderFinding f)
        (acc ++ renderFinding f) = acc ++ renderAll (f :: rest)
    rw [ih (acc ++ renderFinding f)]
    show acc ++ renderFinding f ++ renderAll rest =
      acc ++ (renderFinding f ++ renderAll rest)
    rw [String.append_assoc]

theorem keepFinding_iff (f : Finding) :
    keepFinding f = true ↔
      (f.userDecision = some UserDecision.APPROVED ∨ f.userDecision = none) := by
  unfold keepFinding
  rw [Bool.or_eq_true, beq_iff_eq, beq_iff_eq]

/-- C8: the derived draft comment is computed from exactly the findings
whose decision is APPROVED or unset — a finding is in the included list iff
it occurs in the input and its decision is APPROVED or unset, so a
DISMISSED finding is never included; when the included list is empty the
literal no-issues message is returned; otherwise the comment is the summary
header followed by the included findings' rendered blocks in order; and the
function is deterministic — equal finding lists yield byte-identical
comment strings. -/
theorem generateDraftComment_spec :
    ∀ findings : List Finding,
      (∀ f : Finding,
        f ∈ findings.filter keepFinding ↔
          (f ∈ findings ∧
            (f.userDecision = some UserDecision.APPROVED ∨ f.userDecision = none))) ∧
      (∀ f ∈ findings, f.userDecision = some UserDecision.DISMISSED →
        f ∉ findings.filter keepFinding) ∧
      (findings.filter keepFinding = [] →
        generateDraftComment findings = noIssuesMessage) ∧
      (findings.filter keepFinding ≠ [] →
        generateDraftComment findings =
          summaryHeader ++ renderAll (findings.filter keepFinding)) ∧
      (∀ gs : List Finding, findings = gs →
        generateDraftComment findings = generateDraftComment gs) := by
  intro findings
  refine ⟨?_, ?_, ?_, ?_, ?_⟩
  · intro f
    rw [List.mem_filter, keepFinding_iff]
  · intro f hf hdec hmem
    rw [List.mem_filter, keepFinding_iff] at hmem
    rcases hmem.2 with h | h <;> rw [hdec] at h <;> exact absurd h (by decide)
  · intro h
    unfold generateDraftComment
    rw [h]
    rfl
  · intro h
    unfold generateDraftComment
    rw [if_neg (fun hlen => h (List.eq_nil_of_length_eq_zero hlen))]
    exact foldl_render_eq (findings.filter keepFinding) summaryHeader
  · intro gs h
    rw [h]

/-- C8 witness: a two-finding batch with one APPROVED and one DISMISSED
finding renders exactly the approved finding after the summary header. -/
theorem generateDraftComment_spec_witness :
    generateDraftComment [sampleFindingA, sampleFindingB] =
      summaryHeader ++ renderAll [sampleFindingA] := by
  have hfil : [sampleFindingA, sampleFindingB].filter keepFinding =
      [sampleFindingA] := rfl
  have h := (generateDraftComment_spec [sampleFindingA, sampleFindingB]).2.2.2.1
  rw [hfil] at h
  exact h (by simp)

/-! ### C10: EDITED findings are silently excluded like DISMISSED ones -/

/-- C10: a finding whose decision is EDITED never reaches the draft
comment: the inclusion filter admits only APPROVED-or-unset findings, so no
included finding is EDITED, and deleting the EDITED findings from the input
leaves the derived comment byte-identical — exactly as deleting the
DISMISSED ones does. -/
theorem generateDraftComment_edited_excluded :
    ∀ findings : List Finding,
      (∀ f ∈ findings.filter keepFinding,
        f.userDecision ≠ some UserDecision.EDITED) ∧
      generateDraftComment findings =
        generateDraftComment
          (findings.filter (fun f => !(f.userDecision == some UserDecision.EDITED))) ∧
      generateDraftComment findings =
        generateDraftComment
          (findings.filter (fun f => !(f.userDecision == some UserDecision.DISMISSED))) := by
  intro findings
  have hE : (findings.filter
      (fun f => !(f.userDecision == some UserDecision.EDITED))).filter keepFinding =
      findings.filter keepFinding := by
    rw [List.filter_filter]
    refine List.filter_congr (fun f _ => ?_)
    unfold keepFinding
    cases hd : f.userDecision with
    | none => rfl
    | some d => cases d <;> rfl
  have hD : (findings.filter
      (fun f => !(f.userDecision == some UserDecision.DISMISSED))).filter keepFinding =
      findings.filter keepFinding := by
    rw [List.filter_filter]
    refine List.filter_congr (fun f _ => ?_)
    unfold keepFinding
    cases hd : f.userDecision with
    | none => rfl
    | some d => cases d <;> rfl
  refine ⟨?_, ?_, ?_⟩
  · intro f hf he
    rw [List.mem_filter, keepFinding_iff] at hf
    rcases hf.2 with h | h <;> rw [he] at h <;> exact absurd h (by decide)
  · unfold generateDraftComment
    rw [hE]
  · unfold generateDraftComment
    rw [hD]

/-- C10 witness: an APPROVED finding is not EDITED, and dropping a concrete
EDITED finding from the batch leaves the derived comment unchanged. -/
theorem generateDraftComment_edited_excluded_witness :
    sampleFindingA.userDecision ≠ some UserDecision.EDITED ∧
    generateDraftComment [sampleFindingA, sampleFindingE] =
      generateDraftComment
        ([sampleFindingA, sampleFindingE].filter
          (fun f => !(f.userDecision == some UserDecision.EDITED))) := by
  refine ⟨?_, (generateDraftComment_edited_excluded [sampleFindingA, sampleFindingE]).2.1⟩
  refine (generateDraftComment_edited_excluded [sampleFindingA]).1 sampleFindingA ?_
  have hfil : [sampleFindingA].filter keepFinding = [sampleFindingA] := rfl
  rw [hfil]
  exact List.mem_singleton.mpr rfl

/-! ### C7: PR locator resolution -/

theorem dropLit_self : ∀ p cs : List Char, dropLit p (p ++ cs) = some cs := by
  intro p
  induction p with
  | nil => intro cs; rfl
  | cons c ps ih =>
    intro cs
    show dropLit (c :: ps) (c :: (ps ++ cs)) = some cs
    unfold dropLit
    rw [if_pos rfl]
    exact ih cs

theorem dropLit_sound : ∀ p cs r : List Char, dropLit p cs = some r → cs = p ++ r := by
  intro p
  induction p with
  | nil =>
    intro cs r h
    cases h
    rfl
  | cons c ps ih =>
    intro cs r h
    cases cs with
    | nil => exact absurd h (by simp [dropLit])
    | cons c2 cs2 =>
      unfold dropLit at h
      by_cases he : c2 = c
      · rw [if_pos he] at h
        rw [he, List.cons_append, ih cs2 r h]
      · rw [if_neg he] at h
        exact absurd h (by simp)

theorem takeWhile_all (p : Char → Bool) :
    ∀ xs : List Char, (∀ x ∈ xs, p x = true) → xs.takeWhile p = xs := by
  intro xs h
  exact List.takeWhile_eq_self_iff.mpr h

theorem takeWhile_stop (p : Char → Bool) (c : Char) (hc : p c = false) :
    ∀ xs ys : List Char, (∀ x ∈ xs, p x = true) →
      (xs ++ c :: ys).takeWhile p = xs ∧ (xs ++ c :: ys).dropWhile p = c :: ys := by
  intro xs
  induction xs with
  | nil =>
    intro ys _
    constructor
    · show (c :: ys).takeWhile p = []
      rw [List.takeWhile_cons_of_neg (by simp [hc])]
    · show (c :: ys).dropWhile p = c :: ys
      rw [List.dropWhile_cons_of_neg (by simp [hc])]
  | cons x xs2 ih =>
    intro ys h
    have hx : p x = true := h x (List.mem_cons_self x xs2)
    have hrest := ih ys (fun z hz => h z (List.mem_cons_of_mem x hz))
    constructor
    · show ((x :: (xs2 ++ c :: ys)).takeWhile p) = x :: xs2
      rw [List.takeWhile_cons_of_pos (by simp [hx]), hrest.1]
    · show ((x :: (xs2 ++ c :: ys)).dropWhile p) = c :: ys
      rw [List.dropWhile_cons_of_pos (by simp [hx]), hrest.2]

theorem notSlash_of_not_mem {xs : List Char} (h : '/' ∉ xs) :
    ∀ x ∈ xs, notSlash x = true := by
  intro x hx
  unfold notSlash
  rw [bne_iff_ne]
  intro e
  exact h (e ▸ hx)

theorem matchPRAt_pattern (owner repo ds : List Char)
    (ho1 : owner ≠ []) (ho2 : '/' ∉ owner)
    (hr1 : repo ≠ []) (hr2 : '/' ∉ repo)
    (hd1 : ds ≠ []) (hd2 : ∀ c ∈ ds, c.isDigit) :
    matchPRAt (githubPattern ++ (owner ++ '/' :: (repo ++ (pullSeg ++ ds)))) =
      some { owner := String.mk owner, repo := String.mk repo,
             pullNumber := natFromDigits ds,
             cloneUrl := "https://github.com/" ++ String.mk owner ++ "/" ++
               String.mk repo ++ ".git" } := by
  have howner := takeWhile_stop notSlash '/' rfl owner
    (repo ++ (pullSeg ++ ds)) (notSlash_of_not_mem ho2)
  have hps : pullSeg ++ ds = '/' :: ('p' :: 'u' :: 'l' :: 'l' :: '/' :: ds) := rfl
  have hrepo := takeWhile_stop notSlash '/' rfl repo
    ('p' :: 'u' :: 'l' :: 'l' :: '/' :: ds) (notSlash_of_not_mem hr2)
  have hoe : owner.isEmpty = false := by
    cases owner with
    | nil => exact absurd rfl ho1
    | cons o os => rfl
  have hre : repo.isEmpty = false := by
    cases repo with
    | nil => exact absurd rfl hr1
    | cons o os => rfl
  have hde : ds.isEmpty = false := by
    cases ds with
    | nil => exact absurd rfl hd1
    | cons o os => rfl
  have hdig : ds.takeWhile Char.isDigit = ds := takeWhile_all Char.isDigit ds hd2
  unfold matchPRAt
  rw [dropLit_self]
  simp only [howner.1, howner.2, hoe, Bool.false_eq_true, if_false]
  rw [hps]
  simp only [hrepo.1, hrepo.2, hre, Bool.false_eq_true, if_false]
  rw [show ('/' :: ('p' :: 'u' :: 'l' :: 'l' :: '/' :: ds)) = pullSeg ++ ds from rfl]
  rw [dropLit_self]
  simp only [hdig, hde, Bool.false_eq_true, if_false]

theorem matchPRAt_ne_g (c : Char) (cs : List Char) (h : ¬ c = 'g') :
    matchPRAt (c :: cs) = none := by
  unfold matchPRAt
  rw [show githubPattern = 'g' :: "ithub.com/".data from rfl]
  unfold dropLit
  rw [if_neg h]

theorem searchPR_cons_none (c : Char) (cs : List Char)
    (h : matchPRAt (c :: cs) = none) : searchPR (c :: cs) = searchPR cs := by
  show (match matchPRAt (c :: cs) with
    | some r => some r
    | none => searchPR cs) = searchPR cs
  rw [h]

theorem searchPR_head_some (l : List Char) (r : PRInfo) (h : matchPRAt l = some r) :
    searchPR l = some r := by
  cases l with
  | nil => exact absurd h (by rw [show matchPRAt [] = none from rfl]; simp)
  | cons c cs =>
    show (match matchPRAt (c :: cs) with
      | some r2 => some r2
      | none => searchPR cs) = some r
    rw [h]

theorem searchPR_https (tail : List Char) :
    searchPR ("https://".data ++ tail) = searchPR tail := by
  show searchPR ('h' :: 't' :: 't' :: 'p' :: 's' :: ':' :: '/' :: '/' :: tail) =
    searchPR tail
  rw [searchPR_cons_none _ _ (matchPRAt_ne_g _ _ (by decide)),
    searchPR_cons_none _ _ (matchPRAt_ne_g _ _ (by decide)),
    searchPR_cons_none _ _ (matchPRAt_ne_g _ _ (by decide)),
    searchPR_cons_none _ _ (matchPRAt_ne_g _ _ (by decide)),
    searchPR_cons_none _ _ (matchPRAt_ne_g _ _ (by decide)),
    searchPR_cons_none _ _ (matchPRAt_ne_g _ _ (by decide)),
    searchPR_cons_none _ _ (matchPRAt_ne_g _ _ (by decide)),
    searchPR_cons_none _ _ (matchPRAt_ne_g _ _ (by decide))]

theorem notSlash_false : notSlash '/' = false := rfl

theorem matchPRAt_sound (cs : List Char) (r : PRInfo) (h : matchPRAt cs = some r) :
    ∃ owner repo ds rest : List Char,
      cs = githubPattern ++ (owner ++ '/' :: (repo ++ (pullSeg ++ (ds ++ rest)))) ∧
      owner ≠ [] ∧ '/' ∉ owner ∧ repo ≠ [] ∧ '/' ∉ repo ∧ ds ≠ [] ∧
      ∀ c ∈ ds, c.isDigit := by
  unfold matchPRAt at h
  split at h
  · exact absurd h (by simp)
  · rename_i rest0 hd
    have hcs : cs = githubPattern ++ rest0 := dropLit_sound _ _ _ hd
    try simp only [] at h
    split at h
    · exact absurd h (by simp)
    · rename_i hoe
      split at h
      · rename_i rest2 hdw
        try simp only [] at h
        split at h
        · exact absurd h (by simp)
        · rename_i hre
          split at h
          · exact absurd h (by simp)
          · rename_i rest3 hpl
            try simp only [] at h
            split at h
            · exact absurd h (by simp)
            · rename_i hdse
              have e1 : rest0 = rest0.takeWhile notSlash ++ '/' :: rest2 := by
                conv_lhs => rw [← List.takeWhile_append_dropWhile notSlash rest0]
                rw [hdw]
              have e2 : rest2 = rest2.takeWhile notSlash ++ (pullSeg ++ rest3) := by
                conv_lhs => rw [← List.takeWhile_append_dropWhile notSlash rest2]
                rw [dropLit_sound _ _ _ hpl]
              have e3 : rest3 =
                  rest3.takeWhile Char.isDigit ++ rest3.dropWhile Char.isDigit :=
                (List.takeWhile_append_dropWhile Char.isDigit rest3).symm
              refine ⟨rest0.takeWhile notSlash, rest2.takeWhile notSlash,
                rest3.takeWhile Char.isDigit, rest3.dropWhile Char.isDigit,
                ?_, ?_, ?_, ?_, ?_, ?_, ?_⟩
              · rw [hcs]
                congr 1
                conv_lhs => rw [e1]
                conv_lhs => rw [e2]
                conv_lhs => rw [e3]
              · intro he
                rw [he] at hoe
                exact absurd rfl hoe
              · intro hmem
                have hx := List.mem_takeWhile_imp hmem
                rw [notSlash_false] at hx
                exact Bool.noConfusion hx
              · intro he
                rw [he] at hre
                exact absurd rfl hre
              · intro hmem
                have hx := List.mem_takeWhile_imp hmem
                rw [notSlash_false] at hx
                exact Bool.noConfusion hx
              · intro he
                rw [he] at hdse
                exact absurd rfl hdse
              · intro c hc
                exact List.mem_takeWhile_imp hc
      · rename_i hdw
        exact absurd h (by simp)

theorem searchPR_sound : ∀ (cs : List Char) (r : PRInfo), searchPR cs = some r →
    ∃ pre suf : List Char, cs = pre ++ suf ∧ matchPRAt suf = some r := by
  intro cs
  induction cs with
  | nil =>
    intro r h
    exact absurd h (by rw [show searchPR [] = none from rfl]; simp)
  | cons c rest ih =>
    intro r h
    have hu : searchPR (c :: rest) =
        (match matchPRAt (c :: rest) with
         | some r2 => some r2
         | none => searchPR rest) := rfl
    rw [hu] at h
    cases hm : matchPRAt (c :: rest) with
    | some r2 =>
      rw [hm] at h
      cases h
      exact ⟨[], c :: rest, rfl, hm⟩
    | none =>
      rw [hm] at h
      obtain ⟨pre, suf, he, hms⟩ := ih r h
      exact ⟨c :: pre, suf, by rw [List.cons_append, ← he], hms⟩

/-- C7: for every locator of the valid form the resolution yields exactly
the owner, repo and pull number read off the locator (the pull number being
the numeric value of the digit segment); the spec's example resolves to
owner "acme", repo "widgets", pull number 42; and every string containing
no occurrence of the locator pattern fails with the invalid-reference
error rather than returning a reference. -/
theorem parsePRUrl_spec :
    (∀ owner repo ds : List Char,
      owner ≠ [] → '/' ∉ owner → repo ≠ [] → '/' ∉ repo →
      ds ≠ [] → (∀ c ∈ ds, c.isDigit) →
      parsePRUrl ("https://github.com/" ++ String.mk owner ++ "/" ++
          String.mk repo ++ "/pull/" ++ String.mk ds) =
        Except.ok { owner := String.mk owner, repo := String.mk repo,
                    pullNumber := natFromDigits ds,
                    cloneUrl := "https://github.com/" ++ String.mk owner ++ "/" ++
                      String.mk repo ++ ".git" }) ∧
    (parsePRUrl "https://github.com/acme/widgets/pull/42" =
      Except.ok { owner := "acme", repo := "widgets", pullNumber := 42,
                  cloneUrl := "https://github.com/acme/widgets.git" }) ∧
    (∀ s : String, ¬ ValidLocator s → ∃ e, parsePRUrl s = Except.error e) := by
  refine ⟨?_, ?_, ?_⟩
  · intro owner repo ds ho1 ho2 hr1 hr2 hd1 hd2
    have hdata : ("https://github.com/" ++ String.mk owner ++ "/" ++
        String.mk repo ++ "/pull/" ++ String.mk ds).data =
        "https://".data ++ (githubPattern ++ (owner ++ '/' :: (repo ++ (pullSeg ++ ds)))) := by
      simp only [data_append]
      show "https://github.com/".data ++ owner ++ "/".data ++ repo ++
        "/pull/".data ++ ds = _
      rw [show "https://github.com/".data = "https://".data ++ githubPattern from rfl]
      rw [show ("/" : String).data = ['/'] from rfl]
      rw [show ("/pull/" : String).data = pullSeg from rfl]
      simp [List.append_assoc]
    unfold parsePRUrl
    rw [hdata, searchPR_https]
    rw [searchPR_head_some _ _ (matchPRAt_pattern owner repo ds ho1 ho2 hr1 hr2 hd1 hd2)]
  · rfl
  · intro s hnv
    unfold parsePRUrl
    cases hs : searchPR s.data with
    | none => exact ⟨_, rfl⟩
    | some r =>
      exfalso
      apply hnv
      obtain ⟨pre, suf, hcs, hm⟩ := searchPR_sound _ _ hs
      obtain ⟨o, rp, ds, rest, hsuf, ho1, ho2, hr1, hr2, hd1, hd2⟩ :=
        matchPRAt_sound _ _ hm
      exact ⟨pre, o, rp, ds, rest, by rw [hcs, hsuf], ho1, ho2, hr1, hr2, hd1, hd2⟩

/-- C7 witness: a concrete valid locator resolves to its parts, and a
concrete locator with no occurrence of the pattern fails. -/
theorem parsePRUrl_spec_witness :
    parsePRUrl ("https://github.com/" ++ String.mk ['a'] ++ "/" ++
        String.mk ['b'] ++ "/pull/" ++ String.mk ['7']) =
      Except.ok { owner := String.mk ['a'], repo := String.mk ['b'],
                  pullNumber := natFromDigits ['7'],
                  cloneUrl := "https://github.com/" ++ String.mk ['a'] ++ "/" ++
                    String.mk ['b'] ++ ".git" } ∧
    (∃ e, parsePRUrl "not a pull request locator" = Except.error e) :=
  ⟨parsePRUrl_spec.1 ['a'] ['b'] ['7'] (by decide) (by decide) (by decide)
     (by decide) (by decide) (by decide),
   parsePRUrl_spec.2.2 "not a pull request locator" (fun hv => by
     obtain ⟨pre, o, rp, ds, rest, he, ho1, ho2, hr1, hr2, hd1, hd2⟩ := hv
     have hg : 'g' ∈ "not a pull request locator".data := by
       rw [he]
       exact List.mem_append.mpr (Or.inr (List.mem_append.mpr
         (Or.inl (by decide))))
     exact absurd hg (by decide))⟩
